import Mathlib

/-!
Verification of the medicine-dispensing core of the ayurvishwa backend.

The embedding follows the Express controller `giveMedicines` (together with
the other medicine routes it relies on) and the mongoose `medicineSchema`:

* a `Medicine` document carries `name`, `quantity` and `lowStockThreshold`;
  the schema declares `min: 0` on `quantity` and on `lowStockThreshold`, so a
  `save` whose document violates one of these bounds throws a validation
  error and persists nothing;
* a `Visit` document carries the `medicineGiven` flag and the
  `givenMedicines` list (plus fields the dispense path never writes);
* `giveMedicines` checks the request shape, loads the visit, rejects an
  already dispensed visit, validates each requested item against the stock
  in request order, then deducts stock item by item (re-reading each
  medicine, skipping missing ones, saving after each deduction) and finally
  marks the visit dispensed with the given list stored on it.

Stores are modelled as lists of documents; `findOne` is first-match lookup
and `save` replaces the first document with the same key, after running the
schema validators.  Thrown errors are modelled by the result kind of the
branch that catches them.
-/

namespace AyurVishwa

/-- One requested line of a dispense: the medicine name, the quantity and
the four free-text annotations the controller carries through unchanged. -/
structure MedicineOrder where
  medicineName : String
  quantity : Int
  dosage : String
  instructions : String
  kala : String
  anupana : String
deriving Repr, DecidableEq

/-- A medicine document, as in `medicineSchema`. -/
structure Medicine where
  name : String
  quantity : Int
  lowStockThreshold : Int
deriving Repr, DecidableEq

/-- A visit document; only the fields the dispense path reads or writes,
plus fields it must leave alone. -/
structure Visit where
  id : String
  hospitalId : String
  prescribedMedicines : List MedicineOrder
  medicineGiven : Bool
  givenMedicines : List MedicineOrder
deriving Repr, DecidableEq

/-- The persistent state the controller touches: the medicine collection
and the visit collection. -/
structure DB where
  medicines : List Medicine
  visits : List Visit
deriving Repr, DecidableEq

/-- The request body of `giveMedicines`.  A `none` field models a missing
key (or, for `medicines`, a value that is not an array). -/
structure DispenseRequest where
  visitId : Option String
  hospitalId : Option String
  medicines : Option (List MedicineOrder)
deriving Repr, DecidableEq

/-- The distinguishable outcomes of `giveMedicines`.  `saveFailed` is the
branch where a mongoose save throws (schema validator) and the catch
handler reports the error. -/
inductive DispenseResult where
  | invalidRequest
  | visitNotFound
  | alreadyDispensed
  | medicineNotFound (name : String)
  | insufficientStock (name : String) (available required : Int)
  | saveFailed
  | success
deriving Repr, DecidableEq

/-- `Medicine.findOne({ name })`: first document with the given name. -/
def findMedicine : List Medicine → String → Option Medicine
  | [], _ => none
  | m :: rest, n => if m.name == n then some m else findMedicine rest n

/-- `Visit.findById(id)`: first visit with the given id. -/
def findVisit : List Visit → String → Option Visit
  | [], _ => none
  | v :: rest, vid => if v.id == vid then some v else findVisit rest vid

/-- Writing back a medicine document: the first document with the same
name is replaced (documents are keyed by identity; the document being
saved was obtained by `findOne`, i.e. it is the first match). -/
def replaceMedicine : List Medicine → Medicine → List Medicine
  | [], _ => []
  | m :: rest, m' => if m.name == m'.name then m' :: rest else m :: replaceMedicine rest m'

/-- Writing back a visit document, keyed by id. -/
def replaceVisit : List Visit → Visit → List Visit
  | [], _ => []
  | v :: rest, v' => if v.id == v'.id then v' :: rest else v :: replaceVisit rest v'

/-- `medicine.save()`: the schema validators (`min: 0` on `quantity` and
`lowStockThreshold`) run first; on violation the save throws (`none`) and
the store is untouched, otherwise the document is written back. -/
def saveMedicine (ms : List Medicine) (m : Medicine) : Option (List Medicine) :=
  if m.quantity < 0 ∨ m.lowStockThreshold < 0 then none
  else some (replaceMedicine ms m)

/-- The validation loop of `giveMedicines`: for each item in request
order, look the medicine up (`medicineNotFound` on absence) and compare
stock with the requested quantity (`insufficientStock` when
`quantity < item.quantity`).  Returns the first failure, `none` if all
items pass. -/
def validateItems (ms : List Medicine) : List MedicineOrder → Option DispenseResult
  | [] => none
  | item :: rest =>
    match findMedicine ms item.medicineName with
    | none => some (.medicineNotFound item.medicineName)
    | some med =>
      if med.quantity < item.quantity then
        some (.insufficientStock item.medicineName med.quantity item.quantity)
      else validateItems ms rest

/-- The deduction loop of `giveMedicines`: for each item, re-read the
medicine (a missing one is silently skipped), subtract the requested
quantity and save.  A throwing save aborts the loop with the store as
mutated so far (`false`); there is no compensation. -/
def commitItems : List MedicineOrder → List Medicine → Bool × List Medicine
  | [], ms => (true, ms)
  | item :: rest, ms =>
    match findMedicine ms item.medicineName with
    | none => commitItems rest ms
    | some med =>
      match saveMedicine ms { med with quantity := med.quantity - item.quantity } with
      | none => (false, ms)
      | some ms' => commitItems rest ms'

/-- The `giveMedicines` controller.  Returns the response kind and the
state of the two collections after the call. -/
def giveMedicines (db : DB) (req : DispenseRequest) : DispenseResult × DB :=
  match req.visitId, req.hospitalId, req.medicines with
  | some vid, some hid, some items =>
    if vid == "" || hid == "" then (.invalidRequest, db)
    else
      match findVisit db.visits vid with
      | none => (.visitNotFound, db)
      | some visit =>
        if visit.medicineGiven then (.alreadyDispensed, db)
        else
          match validateItems db.medicines items with
          | some err => (err, db)
          | none =>
            match commitItems items db.medicines with
            | (false, ms') => (.saveFailed, { db with medicines := ms' })
            | (true, ms') =>
              let visit' := { visit with medicineGiven := true, givenMedicines := items }
              (.success, { medicines := ms', visits := replaceVisit db.visits visit' })
  | _, _, _ => (.invalidRequest, db)

/-- The state after a sequence of dispense calls (responses discarded). -/
def dispenseSeq (db : DB) (reqs : List DispenseRequest) : DB :=
  reqs.foldl (fun d r => (giveMedicines d r).snd) db

/-- Every medicine in the store has non-negative quantity. -/
def nonnegStock (ms : List Medicine) : Prop :=
  ∀ m ∈ ms, 0 ≤ m.quantity

instance (ms : List Medicine) : Decidable (nonnegStock ms) := by
  unfold nonnegStock; infer_instance

/-- Total quantity requested for a given medicine name across all items of
a request (a name may occur in several items). -/
def totalRequested : List MedicineOrder → String → Int
  | [], _ => 0
  | it :: rest, n =>
    (if it.medicineName == n then it.quantity else 0) + totalRequested rest n

/-- The medicine names occurring in a request body. -/
def requestedNames (req : DispenseRequest) : List String :=
  match req.medicines with
  | some items => items.map (·.medicineName)
  | none => []

/-- The five reportable error kinds the spec calls non-fatal. -/
def isNonFatal : DispenseResult → Bool
  | .invalidRequest => true
  | .visitNotFound => true
  | .alreadyDispensed => true
  | .medicineNotFound _ => true
  | .insufficientStock _ _ _ => true
  | .saveFailed => false
  | .success => false

/-- The exact condition under which the request-shape guard of
`giveMedicines` fires: a falsy `visitId` or `hospitalId` (missing key or
empty string) or a `medicines` value that is not an array. -/
def invalidCond (req : DispenseRequest) : Prop :=
  req.visitId = none ∨ req.visitId = some "" ∨
  req.hospitalId = none ∨ req.hospitalId = some "" ∨
  req.medicines = none

instance (req : DispenseRequest) : Decidable (invalidCond req) := by
  unfold invalidCond; infer_instance

/-- Frame relation on a medicine document across one dispense call:
name and threshold are untouched, and a medicine whose name is not in the
request is untouched entirely. -/
def medFrame (names : List String) (m m' : Medicine) : Prop :=
  m'.name = m.name ∧ m'.lowStockThreshold = m.lowStockThreshold ∧
  (m.name ∉ names → m' = m)

/-- Frame relation on a visit document across one dispense call targeting
`target`: id, hospital and prescription are untouched, and a visit other
than the target is untouched entirely. -/
def visitFrame (target : Option String) (v v' : Visit) : Prop :=
  v'.id = v.id ∧ v'.hospitalId = v.hospitalId ∧
  v'.prescribedMedicines = v.prescribedMedicines ∧
  (some v.id ≠ target → v' = v)

/-!
Interleaving model for concurrent `giveMedicines` calls.

`giveMedicines` is `async`: it runs synchronously between `await` points
and can be preempted at every `await`ed store operation (`findById`, each
`findOne`, each `save`).  A thread is a suspended execution of the
controller for a fixed request; `threadStep` executes the thread up to
(and including) its next store operation.  Every store operation is one
step, so any interleaving produced by a schedule corresponds to an
execution of the event loop (pure control transitions that own no store
operation are given their own step as well, which only refines the
granularity).  The request-shape guard is pure and is assumed passed when
the thread is created.
-/

/-- Program counter of a suspended `giveMedicines` execution. -/
inductive TPC where
  | start
  | validating (i : Nat)
  | commitRead (i : Nat)
  | commitWrite (i : Nat) (med : Medicine)
  | saveVisitStep
  | finished (r : DispenseResult)
deriving Repr, DecidableEq

/-- A thread running `giveMedicines` for visit `vid` with items `items`;
`visitDoc` is the in-memory visit document read by `findById`. -/
structure TState where
  vid : String
  items : List MedicineOrder
  visitDoc : Option Visit
  pc : TPC
deriving Repr, DecidableEq

/-- One step of a thread: the code between two `await` boundaries. -/
def threadStep (db : DB) (t : TState) : DB × TState :=
  match t.pc with
  | .start =>
    match findVisit db.visits t.vid with
    | none => (db, { t with pc := .finished .visitNotFound })
    | some v =>
      if v.medicineGiven then (db, { t with pc := .finished .alreadyDispensed })
      else (db, { t with visitDoc := some v, pc := .validating 0 })
  | .validating i =>
    match t.items[i]? with
    | none => (db, { t with pc := .commitRead 0 })
    | some item =>
      match findMedicine db.medicines item.medicineName with
      | none => (db, { t with pc := .finished (.medicineNotFound item.medicineName) })
      | some med =>
        if med.quantity < item.quantity then
          let r := DispenseResult.insufficientStock item.medicineName med.quantity item.quantity
          (db, { t with pc := .finished r })
        else (db, { t with pc := .validating (i + 1) })
  | .commitRead i =>
    match t.items[i]? with
    | none => (db, { t with pc := .saveVisitStep })
    | some item =>
      match findMedicine db.medicines item.medicineName with
      | none => (db, { t with pc := .commitRead (i + 1) })
      | some med => (db, { t with pc := .commitWrite i med })
  | .commitWrite i med =>
    match t.items[i]? with
    | none => (db, { t with pc := .saveVisitStep })
    | some item =>
      match saveMedicine db.medicines { med with quantity := med.quantity - item.quantity } with
      | none => (db, { t with pc := .finished .saveFailed })
      | some ms' => ({ db with medicines := ms' }, { t with pc := .commitRead (i + 1) })
  | .saveVisitStep =>
    match t.visitDoc with
    | none => (db, { t with pc := .finished .visitNotFound })
    | some v =>
      let v' := { v with medicineGiven := true, givenMedicines := t.items }
      ({ db with visits := replaceVisit db.visits v' },
       { t with pc := .finished .success })
  | .finished _ => (db, t)

/-- Run two threads under a schedule: `true` steps the first thread,
`false` the second. -/
def schedRun : List Bool → DB → TState → TState → DB × TState × TState
  | [], db, t1, t2 => (db, t1, t2)
  | true :: rest, db, t1, t2 =>
    let s := threadStep db t1
    schedRun rest s.1 s.2 t2
  | false :: rest, db, t1, t2 =>
    let s := threadStep db t2
    schedRun rest s.1 t1 s.2

/-! ### Helper lemmas about the store primitives -/

/-- A medicine returned by `findOne({name})` bears the looked-up name. -/
theorem findMedicine_name {ms : List Medicine} {n : String} {med : Medicine}
    (h : findMedicine ms n = some med) : med.name = n := by
  induction ms with
  | nil => simp [findMedicine] at h
  | cons m rest ih =>
    simp only [findMedicine] at h
    by_cases hm : m.name = n
    · rw [if_pos (by simpa [beq_iff_eq] using hm)] at h
      cases h; exact hm
    · rw [if_neg (by simpa [beq_iff_eq] using hm)] at h
      exact ih h

/-- A visit returned by `findById` bears the looked-up id. -/
theorem findVisit_id {vs : List Visit} {vid : String} {v : Visit}
    (h : findVisit vs vid = some v) : v.id = vid := by
  induction vs with
  | nil => simp [findVisit] at h
  | cons w rest ih =>
    simp only [findVisit] at h
    by_cases hw : w.id = vid
    · rw [if_pos (by simpa [beq_iff_eq] using hw)] at h
      cases h; exact hw
    · rw [if_neg (by simpa [beq_iff_eq] using hw)] at h
      exact ih h

/-- Looking a name up after saving a document of that name yields the
saved document, provided the name was present. -/
theorem findMedicine_replace_self {ms : List Medicine} {n : String}
    {med m' : Medicine} (h : findMedicine ms n = some med) (hn : m'.name = n) :
    findMedicine (replaceMedicine ms m') n = some m' := by
  induction ms with
  | nil => simp [findMedicine] at h
  | cons m rest ih =>
    by_cases hm : m.name = m'.name
    · rw [replaceMedicine, if_pos (show (m.name == m'.name) = true by simpa [beq_iff_eq] using hm),
        findMedicine, if_pos (show (m'.name == n) = true by simpa [beq_iff_eq] using hn)]
    · have hmn : m.name ≠ n := fun he => hm (he.trans hn.symm)
      rw [findMedicine, if_neg (show ¬ (m.name == n) = true by simpa [beq_iff_eq] using hmn)] at h
      rw [replaceMedicine, if_neg (show ¬ (m.name == m'.name) = true by simpa [beq_iff_eq] using hm),
        findMedicine, if_neg (show ¬ (m.name == n) = true by simpa [beq_iff_eq] using hmn)]
      exact ih h

/-- Looking up a name other than the saved one is unaffected by the save
(the replaced document keeps its name). -/
theorem findMedicine_replace_other {ms : List Medicine} {m' : Medicine}
    {n : String} (h : n ≠ m'.name) :
    findMedicine (replaceMedicine ms m') n = findMedicine ms n := by
  induction ms with
  | nil => simp [replaceMedicine]
  | cons m rest ih =>
    by_cases hm : m.name = m'.name
    · have hmn : m.name ≠ n := fun he => h (he.symm.trans hm)
      have hm'n : m'.name ≠ n := fun he => h he.symm
      rw [replaceMedicine, if_pos (show (m.name == m'.name) = true by simpa [beq_iff_eq] using hm),
        findMedicine, if_neg (show ¬ (m'.name == n) = true by simpa [beq_iff_eq] using hm'n),
        findMedicine, if_neg (show ¬ (m.name == n) = true by simpa [beq_iff_eq] using hmn)]
    · rw [replaceMedicine, if_neg (show ¬ (m.name == m'.name) = true by simpa [beq_iff_eq] using hm)]
      by_cases hc : m.name = n
      · rw [findMedicine, if_pos (show (m.name == n) = true by simpa [beq_iff_eq] using hc),
          findMedicine, if_pos (show (m.name == n) = true by simpa [beq_iff_eq] using hc)]
      · rw [findMedicine, if_neg (show ¬ (m.name == n) = true by simpa [beq_iff_eq] using hc),
          findMedicine, if_neg (show ¬ (m.name == n) = true by simpa [beq_iff_eq] using hc)]
        exact ih

/-- Saving a visit document and looking its id up yields the saved
document, provided the id was present. -/
theorem findVisit_replace_self {vs : List Visit} {vid : String}
    {v v' : Visit} (h : findVisit vs vid = some v) (hv : v'.id = vid) :
    findVisit (replaceVisit vs v') vid = some v' := by
  induction vs with
  | nil => simp [findVisit] at h
  | cons w rest ih =>
    by_cases hw : w.id = v'.id
    · rw [replaceVisit, if_pos (show (w.id == v'.id) = true by simpa [beq_iff_eq] using hw),
        findVisit, if_pos (show (v'.id == vid) = true by simpa [beq_iff_eq] using hv)]
    · have hwn : w.id ≠ vid := fun he => hw (he.trans hv.symm)
      rw [findVisit, if_neg (show ¬ (w.id == vid) = true by simpa [beq_iff_eq] using hwn)] at h
      rw [replaceVisit, if_neg (show ¬ (w.id == v'.id) = true by simpa [beq_iff_eq] using hw),
        findVisit, if_neg (show ¬ (w.id == vid) = true by simpa [beq_iff_eq] using hwn)]
      exact ih h

/-! ### Non-negativity of stock -/

/-- Replacing a document with one of non-negative quantity preserves
non-negativity of the store. -/
theorem nonnegStock_replace {ms : List Medicine} {m' : Medicine}
    (h : nonnegStock ms) (hq : 0 ≤ m'.quantity) :
    nonnegStock (replaceMedicine ms m') := by
  induction ms with
  | nil => simp [replaceMedicine, nonnegStock]
  | cons m rest ih =>
    have hm := h m (by simp)
    have hrest : nonnegStock rest := fun x hx => h x (by simp [hx])
    by_cases hc : m.name = m'.name
    · rw [replaceMedicine, if_pos (by simpa [beq_iff_eq] using hc)]
      intro x hx
      rcases List.mem_cons.mp hx with rfl | hx
      · exact hq
      · exact hrest x hx
    · rw [replaceMedicine, if_neg (by simpa [beq_iff_eq] using hc)]
      intro x hx
      rcases List.mem_cons.mp hx with rfl | hx
      · exact hm
      · exact ih hrest x hx

/-- A successful `save` (the `min: 0` validators passed) preserves
non-negativity of the store. -/
theorem nonnegStock_save {ms ms' : List Medicine} {m : Medicine}
    (h : saveMedicine ms m = some ms') (hn : nonnegStock ms) :
    nonnegStock ms' := by
  simp only [saveMedicine] at h
  split at h
  · exact absurd h (by simp)
  · rename_i hguard
    push_neg at hguard
    cases h
    exact nonnegStock_replace hn hguard.1

/-- The deduction loop preserves non-negativity of the store, whether it
completes or aborts on a throwing save. -/
theorem nonnegStock_commit :
    ∀ (items : List MedicineOrder) (ms : List Medicine),
      nonnegStock ms → nonnegStock (commitItems items ms).2 := by
  intro items
  induction items with
  | nil => intro ms h; simpa [commitItems] using h
  | cons item rest ih =>
    intro ms h
    simp only [commitItems]
    cases hf : findMedicine ms item.medicineName with
    | none => simp only [hf]; exact ih ms h
    | some med =>
      simp only [hf]
      cases hs : saveMedicine ms { med with quantity := med.quantity - item.quantity } with
      | none => simp only [hs]; exact h
      | some ms' => simp only [hs]; exact ih ms' (nonnegStock_save hs h)

/-! ### The validation pass -/

/-- With non-negative item quantities, the total requested for any name is
non-negative. -/
theorem totalRequested_nonneg {items : List MedicineOrder} {n : String}
    (h : ∀ it ∈ items, 0 ≤ it.quantity) : 0 ≤ totalRequested items n := by
  induction items with
  | nil => simp [totalRequested]
  | cons it rest ih =>
    simp only [totalRequested]
    have h1 : 0 ≤ it.quantity := h it (by simp)
    have h2 : 0 ≤ totalRequested rest n := ih fun j hj => h j (by simp [hj])
    by_cases hc : it.medicineName = n
    · rw [if_pos (by simpa [beq_iff_eq] using hc)]; omega
    · rw [if_neg (by simpa [beq_iff_eq] using hc)]; omega

/-- With non-negative item quantities, each item's quantity is at most the
total requested for its name. -/
theorem le_totalRequested {items : List MedicineOrder} {it : MedicineOrder}
    (hm : it ∈ items) (h : ∀ j ∈ items, 0 ≤ j.quantity) :
    it.quantity ≤ totalRequested items it.medicineName := by
  induction items with
  | nil => simp at hm
  | cons j rest ih =>
    simp only [totalRequested]
    rcases List.mem_cons.mp hm with rfl | hm'
    · rw [if_pos (by simp)]
      have := @totalRequested_nonneg rest it.medicineName
        (fun k hk => h k (by simp [hk]))
      omega
    · have hrec := ih hm' fun k hk => h k (by simp [hk])
      by_cases hc : j.medicineName = it.medicineName
      · rw [if_pos (by simpa [beq_iff_eq] using hc)]
        have := h j (by simp)
        omega
      · rw [if_neg (by simpa [beq_iff_eq] using hc)]
        omega

/-- The validation loop passes when every item's medicine exists with
stock at least the item's quantity. -/
theorem validateItems_none {ms : List Medicine} {items : List MedicineOrder}
    (h : ∀ it ∈ items, ∃ med, findMedicine ms it.medicineName = some med ∧
        it.quantity ≤ med.quantity) :
    validateItems ms items = none := by
  induction items with
  | nil => rfl
  | cons it rest ih =>
    obtain ⟨med, hf, hq⟩ := h it (by simp)
    simp only [validateItems, hf]
    rw [if_neg (by omega)]
    exact ih fun j hj => h j (by simp [hj])

/-- The validation loop skips a passing block of items: checking is in
request order. -/
theorem validateItems_append {ms : List Medicine} {pre rest : List MedicineOrder}
    (h : ∀ it ∈ pre, ∃ med, findMedicine ms it.medicineName = some med ∧
        it.quantity ≤ med.quantity) :
    validateItems ms (pre ++ rest) = validateItems ms rest := by
  induction pre with
  | nil => rfl
  | cons it pre' ih =>
    obtain ⟨med, hf, hq⟩ := h it (by simp)
    simp only [List.cons_append, validateItems, hf]
    rw [if_neg (by omega)]
    exact ih fun j hj => h j (by simp [hj])

/-- The validation loop only ever reports a missing medicine or
insufficient stock. -/
theorem validateItems_kinds {ms : List Medicine} {items : List MedicineOrder}
    {r : DispenseResult} (h : validateItems ms items = some r) :
    (∃ nm, r = .medicineNotFound nm) ∨
    (∃ nm av rq, r = .insufficientStock nm av rq) := by
  induction items with
  | nil => simp [validateItems] at h
  | cons it rest ih =>
    simp only [validateItems] at h
    cases hf : findMedicine ms it.medicineName with
    | none =>
      simp only [hf] at h
      cases h
      exact Or.inl ⟨_, rfl⟩
    | some med =>
      simp only [hf] at h
      by_cases hq : med.quantity < it.quantity
      · rw [if_pos hq] at h
        cases h
        exact Or.inr ⟨_, _, _, rfl⟩
      · rw [if_neg hq] at h
        exact ih h

/-! ### The deduction pass -/

/-- Full characterisation of a deduction pass in which every item's
medicine is present with stock at least the total requested for that name
(thresholds non-negative, quantities non-negative): the pass completes,
and every lookup afterwards sees the stock lowered by exactly the total
requested for the looked-up name — so names and thresholds are untouched
and unrequested medicines keep their stock. -/
theorem commitItems_total :
    ∀ (items : List MedicineOrder) (ms : List Medicine),
      (∀ it ∈ items, 0 ≤ it.quantity) →
      (∀ it ∈ items, ∃ med, findMedicine ms it.medicineName = some med ∧
          totalRequested items it.medicineName ≤ med.quantity ∧
          0 ≤ med.lowStockThreshold) →
      (commitItems items ms).1 = true ∧
      ∀ n, findMedicine (commitItems items ms).2 n =
        (findMedicine ms n).map
          (fun med => { med with quantity := med.quantity - totalRequested items n }) := by
  intro items
  induction items with
  | nil =>
    intro ms _ _
    refine ⟨rfl, fun n => ?_⟩
    simp only [commitItems]
    cases hf : findMedicine ms n <;> simp [hf, totalRequested]
  | cons it rest ih =>
    intro ms hpos hpres
    obtain ⟨med, hfind, htot, hthr⟩ := hpres it (by simp)
    have hmedname : med.name = it.medicineName := findMedicine_name hfind
    have hqit : 0 ≤ it.quantity := hpos it (by simp)
    have hrestpos : ∀ j ∈ rest, 0 ≤ j.quantity := fun j hj => hpos j (by simp [hj])
    have htotcons : totalRequested (it :: rest) it.medicineName =
        it.quantity + totalRequested rest it.medicineName := by
      simp [totalRequested]
    have hrest_nonneg : 0 ≤ totalRequested rest it.medicineName :=
      totalRequested_nonneg hrestpos
    have hq' : 0 ≤ med.quantity - it.quantity := by omega
    set med' : Medicine := { med with quantity := med.quantity - it.quantity } with hmed'
    have hsave : saveMedicine ms med' = some (replaceMedicine ms med') := by
      rw [saveMedicine, if_neg]
      push_neg
      constructor
      · simpa [hmed'] using hq'
      · simpa [hmed'] using hthr
    have hstep : commitItems (it :: rest) ms = commitItems rest (replaceMedicine ms med') := by
      simp only [commitItems, hfind, hsave]
    have hpres' : ∀ j ∈ rest, ∃ med2,
        findMedicine (replaceMedicine ms med') j.medicineName = some med2 ∧
        totalRequested rest j.medicineName ≤ med2.quantity ∧
        0 ≤ med2.lowStockThreshold := by
      intro j hj
      obtain ⟨med2, hf2, ht2, hth2⟩ := hpres j (by simp [hj])
      by_cases hn : j.medicineName = it.medicineName
      · have hmed2 : med2 = med := by
          rw [hn] at hf2
          exact Option.some.inj (hf2.symm.trans hfind)
        refine ⟨med', ?_, ?_, ?_⟩
        · rw [hn]
          exact findMedicine_replace_self hfind (by simp [hmed', hmedname])
        · have : totalRequested (it :: rest) j.medicineName ≤ med2.quantity := ht2
          rw [hn] at this ⊢
          rw [htotcons, hmed2] at this
          simp only [hmed']
          omega
        · simp [hmed', hthr]
      · have hfother : findMedicine (replaceMedicine ms med') j.medicineName =
            findMedicine ms j.medicineName :=
          findMedicine_replace_other (by simp [hmed', hmedname, hn])
        refine ⟨med2, by rw [hfother]; exact hf2, ?_, hth2⟩
        have : totalRequested (it :: rest) j.medicineName =
            totalRequested rest j.medicineName := by
          simp only [totalRequested]
          rw [if_neg (by simpa [beq_iff_eq] using fun he => hn (he.symm : _))]
          omega
        omega
    obtain ⟨hfst, hsnd⟩ := ih (replaceMedicine ms med') hrestpos hpres'
    rw [hstep]
    refine ⟨hfst, fun n => ?_⟩
    rw [hsnd n]
    have hmedname' : med'.name = it.medicineName := hmedname
    by_cases hn : n = it.medicineName
    · subst hn
      rw [findMedicine_replace_self hfind hmedname', hfind, htotcons]
      simp only [Option.map, hmed', Option.some.injEq, Medicine.mk.injEq]
      refine ⟨trivial, by omega, trivial⟩
    · have hne : ¬ it.medicineName = n := fun he => hn he.symm
      rw [findMedicine_replace_other
        (show n ≠ med'.name from fun he => hn (he.trans hmedname'))]
      have htr : totalRequested (it :: rest) n = totalRequested rest n := by
        simp only [totalRequested]
        rw [if_neg (show ¬ (it.medicineName == n) = true by
          simp only [beq_iff_eq]; exact hne)]
        omega
      rw [htr]

/-- A successful save writes back exactly the replaced store. -/
theorem saveMedicine_some {ms ms' : List Medicine} {m : Medicine}
    (h : saveMedicine ms m = some ms') : ms' = replaceMedicine ms m := by
  simp only [saveMedicine] at h
  split at h
  · exact absurd h (by simp)
  · exact (Option.some.inj h).symm

/-- Unfolding of `giveMedicines` once the request-shape guard, the visit
lookup and the dispensed check have passed. -/
theorem giveMedicines_spec {db : DB} {vid hid : String}
    {items : List MedicineOrder} {visit : Visit}
    (h2 : vid ≠ "") (h4 : hid ≠ "")
    (h6 : findVisit db.visits vid = some visit)
    (h7 : visit.medicineGiven = false) :
    giveMedicines db ⟨some vid, some hid, some items⟩ =
      match validateItems db.medicines items with
      | some err => (err, db)
      | none =>
        match commitItems items db.medicines with
        | (false, ms') => (.saveFailed, { db with medicines := ms' })
        | (true, ms') =>
          (.success,
           { medicines := ms',
             visits := replaceVisit db.visits
               { visit with medicineGiven := true, givenMedicines := items } }) := by
  simp only [giveMedicines]
  rw [if_neg (show ¬ (vid == "" || hid == "") = true by simp [h2, h4])]
  simp only [h6, h7, Bool.false_eq_true, if_false]

/-! ### Frame lemmas -/

/-- `medFrame` is reflexive. -/
theorem medFrame_refl (names : List String) (m : Medicine) : medFrame names m m :=
  ⟨rfl, rfl, fun _ => rfl⟩

/-- `medFrame` holds of an unchanged store. -/
theorem forall₂_medFrame_refl (names : List String) (ms : List Medicine) :
    List.Forall₂ (medFrame names) ms ms :=
  List.forall₂_same.mpr fun m _ => medFrame_refl names m

/-- `medFrame` composes across successive stores. -/
theorem forall₂_medFrame_trans {names : List String} :
    ∀ {l1 l2 l3 : List Medicine}, List.Forall₂ (medFrame names) l1 l2 →
      List.Forall₂ (medFrame names) l2 l3 → List.Forall₂ (medFrame names) l1 l3 := by
  intro l1 l2 l3 h12 h23
  induction h12 generalizing l3 with
  | nil => cases h23; exact List.Forall₂.nil
  | cons hab h' ih =>
    rename_i a b l₁ l₂
    cases h23 with
    | cons hbc h'' =>
      refine List.Forall₂.cons ⟨hbc.1.trans hab.1, hbc.2.1.trans hab.2.1, fun hn => ?_⟩
        (ih h'')
      have e1 : b = a := hab.2.2 hn
      have hnb : b.name ∉ names := by rw [e1]; exact hn
      exact (hbc.2.2 hnb).trans e1

/-- Saving a document that keeps its name and threshold, for a name that
is in the request, respects the frame. -/
theorem forall₂_medFrame_replace {names : List String} {ms : List Medicine}
    {n : String} {med m' : Medicine}
    (hfind : findMedicine ms n = some med)
    (hname : m'.name = med.name) (hthr : m'.lowStockThreshold = med.lowStockThreshold)
    (hmem : med.name ∈ names) :
    List.Forall₂ (medFrame names) ms (replaceMedicine ms m') := by
  induction ms with
  | nil => simp [findMedicine] at hfind
  | cons m rest ih =>
    have hmedn : med.name = n := findMedicine_name hfind
    by_cases hc : m.name = m'.name
    · rw [replaceMedicine, if_pos (show (m.name == m'.name) = true by
        simpa [beq_iff_eq] using hc)]
      have hmn : m.name = n := hc.trans (hname.trans hmedn)
      rw [findMedicine, if_pos (show (m.name == n) = true by
        simpa [beq_iff_eq] using hmn)] at hfind
      cases hfind
      exact List.Forall₂.cons ⟨hname, hthr, fun hnot => absurd hmem hnot⟩
        (forall₂_medFrame_refl names rest)
    · rw [replaceMedicine, if_neg (show ¬ (m.name == m'.name) = true by
        simpa [beq_iff_eq] using hc)]
      have hmn : m.name ≠ n := fun he => hc (he.trans (hmedn.symm.trans hname.symm))
      rw [findMedicine, if_neg (show ¬ (m.name == n) = true by
        simpa [beq_iff_eq] using hmn)] at hfind
      exact List.Forall₂.cons (medFrame_refl names m) (ih hfind)

/-- The deduction pass only writes quantities of requested names. -/
theorem forall₂_medFrame_commit {names : List String} :
    ∀ (items : List MedicineOrder) (ms : List Medicine),
      (∀ it ∈ items, it.medicineName ∈ names) →
      List.Forall₂ (medFrame names) ms (commitItems items ms).2 := by
  intro items
  induction items with
  | nil => intro ms _; exact forall₂_medFrame_refl names ms
  | cons it rest ih =>
    intro ms hsub
    simp only [commitItems]
    cases hf : findMedicine ms it.medicineName with
    | none =>
      simp only [hf]
      exact ih ms fun j hj => hsub j (by simp [hj])
    | some med =>
      simp only [hf]
      cases hs : saveMedicine ms { med with quantity := med.quantity - it.quantity } with
      | none => simp only [hs]; exact forall₂_medFrame_refl names ms
      | some ms' =>
        simp only [hs]
        have hrepl := @forall₂_medFrame_replace names ms it.medicineName med
          { med with quantity := med.quantity - it.quantity } hf rfl rfl
          (by rw [findMedicine_name hf]; exact hsub it (by simp))
        rw [← saveMedicine_some hs] at hrepl
        exact forall₂_medFrame_trans hrepl (ih ms' fun j hj => hsub j (by simp [hj]))

/-- `visitFrame` is reflexive. -/
theorem visitFrame_refl (target : Option String) (v : Visit) : visitFrame target v v :=
  ⟨rfl, rfl, rfl, fun _ => rfl⟩

/-- `visitFrame` holds of an unchanged collection. -/
theorem forall₂_visitFrame_refl (target : Option String) (vs : List Visit) :
    List.Forall₂ (visitFrame target) vs vs :=
  List.forall₂_same.mpr fun v _ => visitFrame_refl target v

/-- Saving the target visit with only flag and given-list changed
respects the visit frame. -/
theorem forall₂_visitFrame_replace {vs : List Visit} {vid : String}
    {visit v' : Visit}
    (hfind : findVisit vs vid = some visit)
    (hid : v'.id = visit.id) (hhosp : v'.hospitalId = visit.hospitalId)
    (hpre : v'.prescribedMedicines = visit.prescribedMedicines) :
    List.Forall₂ (visitFrame (some vid)) vs (replaceVisit vs v') := by
  induction vs with
  | nil => simp [findVisit] at hfind
  | cons w rest ih =>
    have hvisid : visit.id = vid := findVisit_id hfind
    by_cases hc : w.id = v'.id
    · rw [replaceVisit, if_pos (show (w.id == v'.id) = true by
        simpa [beq_iff_eq] using hc)]
      have hwn : w.id = vid := hc.trans (hid.trans hvisid)
      rw [findVisit, if_pos (show (w.id == vid) = true by
        simpa [beq_iff_eq] using hwn)] at hfind
      cases hfind
      refine List.Forall₂.cons ⟨hid, hhosp, hpre, fun hne => ?_⟩
        (forall₂_visitFrame_refl (some vid) rest)
      exact absurd (congrArg some hvisid) hne
    · rw [replaceVisit, if_neg (show ¬ (w.id == v'.id) = true by
        simpa [beq_iff_eq] using hc)]
      have hwn : w.id ≠ vid := fun he => hc (he.trans (hvisid.symm.trans hid.symm))
      rw [findVisit, if_neg (show ¬ (w.id == vid) = true by
        simpa [beq_iff_eq] using hwn)] at hfind
      exact List.Forall₂.cons (visitFrame_refl (some vid) w) (ih hfind)

/-- Validation stops with `medicineNotFound` at an absent medicine. -/
theorem validateItems_cons_notfound {ms : List Medicine} {it : MedicineOrder}
    {rest : List MedicineOrder} (hf : findMedicine ms it.medicineName = none) :
    validateItems ms (it :: rest) = some (.medicineNotFound it.medicineName) := by
  simp only [validateItems, hf]

/-- Validation stops with `insufficientStock` when stock is below the
requested quantity. -/
theorem validateItems_cons_insufficient {ms : List Medicine} {it : MedicineOrder}
    {rest : List MedicineOrder} {med : Medicine}
    (hf : findMedicine ms it.medicineName = some med)
    (hq : med.quantity < it.quantity) :
    validateItems ms (it :: rest) =
      some (.insufficientStock it.medicineName med.quantity it.quantity) := by
  simp only [validateItems, hf, if_pos hq]

/-- A deduction step whose save succeeds continues with the written store. -/
theorem commitItems_cons_step {ms ms' : List Medicine} {it : MedicineOrder}
    {rest : List MedicineOrder} {med : Medicine}
    (hf : findMedicine ms it.medicineName = some med)
    (hs : saveMedicine ms { med with quantity := med.quantity - it.quantity } = some ms') :
    commitItems (it :: rest) ms = commitItems rest ms' := by
  simp only [commitItems, hf, hs]

/-- A deduction step whose save throws aborts with the store as written
so far. -/
theorem commitItems_cons_fail {ms : List Medicine} {it : MedicineOrder}
    {rest : List MedicineOrder} {med : Medicine}
    (hf : findMedicine ms it.medicineName = some med)
    (hs : saveMedicine ms { med with quantity := med.quantity - it.quantity } = none) :
    commitItems (it :: rest) ms = (false, ms) := by
  simp only [commitItems, hf, hs]

/-- A single `giveMedicines` call preserves non-negativity of stock. -/
theorem nonnegStock_give (db : DB) (req : DispenseRequest)
    (h : nonnegStock db.medicines) :
    nonnegStock ((giveMedicines db req).2).medicines := by
  rcases req with ⟨ov, oh, om⟩
  rcases ov with _ | vid
  · simpa [giveMedicines] using h
  rcases oh with _ | hid
  · simpa [giveMedicines] using h
  rcases om with _ | items
  · simpa [giveMedicines] using h
  simp only [giveMedicines]
  split
  · simpa using h
  cases hv : findVisit db.visits vid with
  | none => simpa using h
  | some visit =>
    by_cases hg : visit.medicineGiven
    · simp [hg]; exact h
    simp only [hg, if_false, Bool.false_eq_true]
    cases hval : validateItems db.medicines items with
    | some err => simpa using h
    | none =>
      have hcommit := nonnegStock_commit items db.medicines h
      cases hc : commitItems items db.medicines with
      | mk b ms' =>
        rw [hc] at hcommit
        cases b with
        | false => simpa [hc] using hcommit
        | true => simpa [hc] using hcommit

/-! ### Claims -/

/-- C1: starting from any inventory state in which every medicine's
quantity is non-negative, every state reached by a sequence of dispense
calls — duplicate medicine names in a request included — has only
non-negative quantities; and every intermediate store state is produced
by a schema-validated save, which preserves non-negativity, so no
intermediate state is negative either. -/
theorem claim1_nonneg_invariant :
    (∀ (ms : List Medicine) (m : Medicine) (ms' : List Medicine),
        saveMedicine ms m = some ms' → nonnegStock ms → nonnegStock ms') ∧
    ∀ (db : DB) (reqs : List DispenseRequest),
      nonnegStock db.medicines → nonnegStock (dispenseSeq db reqs).medicines := by
  constructor
  · exact fun ms m ms' h hn => nonnegStock_save h hn
  · intro db reqs
    induction reqs generalizing db with
    | nil => intro h; simpa [dispenseSeq] using h
    | cons r rest ih =>
      intro h
      have h1 := nonnegStock_give db r h
      simpa [dispenseSeq] using ih ((giveMedicines db r).2) h1

/-- Witness for C1 at a concrete store and request sequence. -/
theorem claim1_nonneg_invariant_witness :
    nonnegStock [({ name := "A", quantity := 3, lowStockThreshold := 0 } : Medicine)] ∧
    nonnegStock (dispenseSeq
      ⟨[⟨"A", 5, 0⟩], [⟨"v", "h", [], false, []⟩]⟩
      [⟨some "v", some "h", some [⟨"A", 2, "d", "i", "k", "a"⟩]⟩]).medicines :=
  ⟨claim1_nonneg_invariant.1 [⟨"A", 5, 0⟩] ⟨"A", 3, 0⟩ [⟨"A", 3, 0⟩]
      (by decide) (by decide),
   claim1_nonneg_invariant.2 ⟨[⟨"A", 5, 0⟩], [⟨"v", "h", [], false, []⟩]⟩
      [⟨some "v", some "h", some [⟨"A", 2, "d", "i", "k", "a"⟩]⟩] (by decide)⟩

/-- C5: calling dispense on a visit whose `medicineGiven` flag is already
`true` returns `AlreadyDispensed` and mutates nothing, for every items
list in the request body (the request must pass the shape guard, which
itself mutates nothing). -/
theorem claim5_already_dispensed {db : DB} {vid hid : String}
    {items : List MedicineOrder} {visit : Visit}
    (h2 : vid ≠ "") (h4 : hid ≠ "")
    (h6 : findVisit db.visits vid = some visit)
    (h7 : visit.medicineGiven = true) :
    giveMedicines db ⟨some vid, some hid, some items⟩ = (.alreadyDispensed, db) := by
  simp only [giveMedicines]
  rw [if_neg (show ¬ (vid == "" || hid == "") = true by simp [h2, h4])]
  simp [h6, h7]

/-- Witness for C5 on a concrete dispensed visit. -/
theorem claim5_already_dispensed_witness :
    giveMedicines ⟨[⟨"A", 9, 0⟩], [⟨"v", "h", [], true, []⟩]⟩
        ⟨some "v", some "h", some [⟨"A", 2, "d", "i", "k", "a"⟩]⟩
      = (.alreadyDispensed, ⟨[⟨"A", 9, 0⟩], [⟨"v", "h", [], true, []⟩]⟩) :=
  @claim5_already_dispensed ⟨[⟨"A", 9, 0⟩], [⟨"v", "h", [], true, []⟩]⟩ "v" "h"
    [⟨"A", 2, "d", "i", "k", "a"⟩] ⟨"v", "h", [], true, []⟩
    (by decide) (by decide) (by decide) rfl

/-- C10: a request whose items list is the empty array, with ids present
and a not-yet-dispensed visit, is accepted: success is returned, the
visit's flag becomes `true` with `givenMedicines` stored empty, and the
medicine store is untouched. -/
theorem claim10_empty_items {db : DB} {vid hid : String} {visit : Visit}
    (h2 : vid ≠ "") (h4 : hid ≠ "")
    (h6 : findVisit db.visits vid = some visit)
    (h7 : visit.medicineGiven = false) :
    (giveMedicines db ⟨some vid, some hid, some []⟩).1 = .success ∧
    ((giveMedicines db ⟨some vid, some hid, some []⟩).2).medicines = db.medicines ∧
    findVisit ((giveMedicines db ⟨some vid, some hid, some []⟩).2).visits vid =
      some { visit with medicineGiven := true, givenMedicines := [] } := by
  rw [giveMedicines_spec h2 h4 h6 h7]
  have hv' : ({ visit with medicineGiven := true, givenMedicines := ([] : List MedicineOrder) } : Visit).id = vid :=
    findVisit_id (v := visit) h6
  exact ⟨rfl, rfl, findVisit_replace_self h6 hv'⟩

/-- Witness for C10 on a concrete store. -/
theorem claim10_empty_items_witness :
    (giveMedicines ⟨[⟨"A", 7, 1⟩], [⟨"v", "h", [], false, []⟩]⟩
        ⟨some "v", some "h", some []⟩).1 = .success ∧
    ((giveMedicines ⟨[⟨"A", 7, 1⟩], [⟨"v", "h", [], false, []⟩]⟩
        ⟨some "v", some "h", some []⟩).2).medicines = [⟨"A", 7, 1⟩] ∧
    findVisit ((giveMedicines ⟨[⟨"A", 7, 1⟩], [⟨"v", "h", [], false, []⟩]⟩
        ⟨some "v", some "h", some []⟩).2).visits "v" =
      some ⟨"v", "h", [], true, []⟩ :=
  @claim10_empty_items ⟨[⟨"A", 7, 1⟩], [⟨"v", "h", [], false, []⟩]⟩ "v" "h"
    ⟨"v", "h", [], false, []⟩ (by decide) (by decide) (by decide) rfl

/-- C2 counterexample: stock `{A: 100}` and request `[A:60, A:60]` on a
fresh visit satisfy the claim's hypothesis — every item names an existing
medicine whose stock (100) is at least that item's quantity (60) — yet
the call does not succeed: the second deduction drives the document
negative, its save throws, and the call fails. -/
theorem claim2_counterexample :
    (giveMedicines ⟨[⟨"A", 100, 0⟩], [⟨"v", "h", [], false, []⟩]⟩
        ⟨some "v", some "h",
         some [⟨"A", 60, "d", "i", "k", "a"⟩, ⟨"A", 60, "d", "i", "k", "a"⟩]⟩).1
      = .saveFailed ∧
    DispenseResult.saveFailed ≠ DispenseResult.success := by decide

/-- C2 (amended): for every well-formed request on a not-yet-dispensed
visit in which every item has positive quantity and names an existing
medicine whose stock is at least the TOTAL quantity requested for that
name across the whole request (and whose threshold is schema-conformant),
the operation succeeds, every medicine's stock drops by exactly the total
requested for its name (and only that), the visit's flag becomes `true`,
and `givenMedicines` is stored as the request's item list itself, so the
four free-text annotations are carried through unchanged. -/
theorem claim2_dispense_success {db : DB} {vid hid : String}
    {items : List MedicineOrder} {visit : Visit}
    (h2 : vid ≠ "") (h4 : hid ≠ "")
    (h6 : findVisit db.visits vid = some visit)
    (h7 : visit.medicineGiven = false)
    (hpos : ∀ it ∈ items, 0 < it.quantity)
    (hpres : ∀ it ∈ items, ∃ med,
        findMedicine db.medicines it.medicineName = some med ∧
        totalRequested items it.medicineName ≤ med.quantity ∧
        0 ≤ med.lowStockThreshold) :
    (giveMedicines db ⟨some vid, some hid, some items⟩).1 = .success ∧
    (∀ n, findMedicine ((giveMedicines db ⟨some vid, some hid, some items⟩).2).medicines n =
      (findMedicine db.medicines n).map
        (fun med => { med with quantity := med.quantity - totalRequested items n })) ∧
    findVisit ((giveMedicines db ⟨some vid, some hid, some items⟩).2).visits vid =
      some { visit with medicineGiven := true, givenMedicines := items } := by
  have hpos' : ∀ it ∈ items, 0 ≤ it.quantity := fun it h => le_of_lt (hpos it h)
  have hval : validateItems db.medicines items = none := by
    apply validateItems_none
    intro it hit
    obtain ⟨med, hf, ht, _⟩ := hpres it hit
    exact ⟨med, hf, le_trans (le_totalRequested hit hpos') ht⟩
  obtain ⟨hfst, hsnd⟩ := commitItems_total items db.medicines hpos' hpres
  rw [giveMedicines_spec h2 h4 h6 h7, hval]
  cases hc : commitItems items db.medicines with
  | mk b ms' =>
    rw [hc] at hfst hsnd
    cases b with
    | false => simp at hfst
    | true =>
      have hv' : ({ visit with medicineGiven := true, givenMedicines := items } : Visit).id = vid :=
        findVisit_id (v := visit) h6
      exact ⟨rfl, fun n => hsnd n, findVisit_replace_self h6 hv'⟩

/-- Witness for C2 (amended) at the spec's Scenario 1: stock
`{Paracetamol: 100}`, request `{Paracetamol: 10}` succeeds and leaves 90,
with the annotations stored unchanged. -/
theorem claim2_dispense_success_witness :
    (giveMedicines ⟨[⟨"Paracetamol", 100, 0⟩], [⟨"v", "h", [], false, []⟩]⟩
        ⟨some "v", some "h", some [⟨"Paracetamol", 10, "d", "i", "k", "a"⟩]⟩).1
      = .success ∧
    findMedicine ((giveMedicines ⟨[⟨"Paracetamol", 100, 0⟩], [⟨"v", "h", [], false, []⟩]⟩
        ⟨some "v", some "h", some [⟨"Paracetamol", 10, "d", "i", "k", "a"⟩]⟩).2).medicines
        "Paracetamol" = some ⟨"Paracetamol", 90, 0⟩ ∧
    findVisit ((giveMedicines ⟨[⟨"Paracetamol", 100, 0⟩], [⟨"v", "h", [], false, []⟩]⟩
        ⟨some "v", some "h", some [⟨"Paracetamol", 10, "d", "i", "k", "a"⟩]⟩).2).visits "v" =
      some ⟨"v", "h", [], true, [⟨"Paracetamol", 10, "d", "i", "k", "a"⟩]⟩ := by
  obtain ⟨ha, hb, hc⟩ :=
    @claim2_dispense_success
      ⟨[⟨"Paracetamol", 100, 0⟩], [⟨"v", "h", [], false, []⟩]⟩ "v" "h"
      [⟨"Paracetamol", 10, "d", "i", "k", "a"⟩] ⟨"v", "h", [], false, []⟩
      (by decide) (by decide) (by decide) rfl
      (by
        intro it hit
        have he : it = ⟨"Paracetamol", 10, "d", "i", "k", "a"⟩ := by simpa using hit
        subst he
        decide)
      (by
        intro it hit
        have he : it = ⟨"Paracetamol", 10, "d", "i", "k", "a"⟩ := by simpa using hit
        subst he
        exact ⟨⟨"Paracetamol", 100, 0⟩, by decide, by decide, by decide⟩)
  refine ⟨ha, ?_, hc⟩
  rw [hb "Paracetamol"]
  decide

/-- C3 counterexample: stock `{A: 100}`, request `[A:60, A:60]` on a
fresh visit.  The commit pass applies the first decrement (100 → 40) and
the second decrement's save throws; the claim demands that the applied
decrement be undone, leaving A at 100, but the code leaves A at 40. -/
theorem claim3_counterexample :
    ((giveMedicines ⟨[⟨"A", 100, 0⟩], [⟨"v", "h", [], false, []⟩]⟩
        ⟨some "v", some "h",
         some [⟨"A", 60, "d1", "i1", "k1", "n1"⟩, ⟨"A", 60, "d2", "i2", "k2", "n2"⟩]⟩).2).medicines
      = [⟨"A", 40, 0⟩] ∧
    ¬ ((⟨"A", 40, 0⟩ : Medicine) = ⟨"A", 100, 0⟩) := by decide

/-- C3 (amended): when a decrement of the commit pass fails — the save
throws because the stock would go negative — the operation stops
immediately and fails with the save error; the decrements already applied
in that pass are NOT undone, so the final state is the partially
committed one, and the visit is left untouched.  Stated here for a
two-item request on one medicine where the first decrement fits
(`a ≤ s`) but the second does not (`s < a + b`), both passing validation
(`a ≤ s`, `b ≤ s`). -/
theorem claim3_no_rollback (s a b : Int) (ha : 0 < a) (has : a ≤ s)
    (hbs : b ≤ s) (hab : s < a + b) :
    giveMedicines ⟨[⟨"A", s, 0⟩], [⟨"v", "h", [], false, []⟩]⟩
      ⟨some "v", some "h",
       some [⟨"A", a, "d1", "i1", "k1", "n1"⟩, ⟨"A", b, "d2", "i2", "k2", "n2"⟩]⟩
    = (.saveFailed, ⟨[⟨"A", s - a, 0⟩], [⟨"v", "h", [], false, []⟩]⟩) := by
  have e1 : findMedicine [(⟨"A", s, 0⟩ : Medicine)]
      ((⟨"A", a, "d1", "i1", "k1", "n1"⟩ : MedicineOrder).medicineName)
      = some ⟨"A", s, 0⟩ := by
    simp [findMedicine]
  have e1b : findMedicine [(⟨"A", s, 0⟩ : Medicine)]
      ((⟨"A", b, "d2", "i2", "k2", "n2"⟩ : MedicineOrder).medicineName)
      = some ⟨"A", s, 0⟩ := by
    simp [findMedicine]
  have hs1 : saveMedicine [(⟨"A", s, 0⟩ : Medicine)] ⟨"A", s - a, 0⟩
      = some [⟨"A", s - a, 0⟩] := by
    simp only [saveMedicine]
    rw [if_neg (show ¬ (s - a < 0 ∨ (0 : Int) < 0) by omega)]
    simp [replaceMedicine]
  have e2 : findMedicine [(⟨"A", s - a, 0⟩ : Medicine)]
      ((⟨"A", b, "d2", "i2", "k2", "n2"⟩ : MedicineOrder).medicineName)
      = some ⟨"A", s - a, 0⟩ := by
    simp [findMedicine]
  have hs2 : saveMedicine [(⟨"A", s - a, 0⟩ : Medicine)] ⟨"A", s - a - b, 0⟩
      = none := by
    simp only [saveMedicine]
    rw [if_pos (show s - a - b < 0 ∨ (0 : Int) < 0 by omega)]
  have hval : validateItems [(⟨"A", s, 0⟩ : Medicine)]
      [⟨"A", a, "d1", "i1", "k1", "n1"⟩, ⟨"A", b, "d2", "i2", "k2", "n2"⟩] = none := by
    apply validateItems_none
    intro it hit
    rcases List.mem_cons.mp hit with rfl | hit'
    · exact ⟨⟨"A", s, 0⟩, e1, has⟩
    · rcases List.mem_cons.mp hit' with rfl | hit''
      · exact ⟨⟨"A", s, 0⟩, e1b, hbs⟩
      · simp at hit''
  have hcommit : commitItems
      [⟨"A", a, "d1", "i1", "k1", "n1"⟩, ⟨"A", b, "d2", "i2", "k2", "n2"⟩]
      [(⟨"A", s, 0⟩ : Medicine)] = (false, [⟨"A", s - a, 0⟩]) := by
    rw [commitItems_cons_step e1 hs1, commitItems_cons_fail e2 hs2]
  rw [@giveMedicines_spec ⟨[⟨"A", s, 0⟩], [⟨"v", "h", [], false, []⟩]⟩ "v" "h"
      [⟨"A", a, "d1", "i1", "k1", "n1"⟩, ⟨"A", b, "d2", "i2", "k2", "n2"⟩]
      ⟨"v", "h", [], false, []⟩
      (by decide) (by decide) (by simp [findVisit]) rfl, hval, hcommit]

/-- Witness for C3 (amended) at `s = 100`, `a = b = 60`: the call fails
with the save error and the store records the partial commit `A = 40`. -/
theorem claim3_no_rollback_witness :
    giveMedicines ⟨[⟨"A", 100, 0⟩], [⟨"v", "h", [], false, []⟩]⟩
      ⟨some "v", some "h",
       some [⟨"A", 60, "d1", "i1", "k1", "n1"⟩, ⟨"A", 60, "d2", "i2", "k2", "n2"⟩]⟩
    = (.saveFailed, ⟨[⟨"A", 40, 0⟩], [⟨"v", "h", [], false, []⟩]⟩) :=
  claim3_no_rollback 100 60 60 (by decide) (by decide) (by decide) (by decide)

/-- C4 counterexample: a request with both ids present and an empty items
array on a fresh visit is NOT rejected as invalid — it succeeds. -/
theorem claim4_counterexample :
    (giveMedicines ⟨[], [⟨"v", "h", [], false, []⟩]⟩ ⟨some "v", some "h", some []⟩).1
      = .success ∧
    DispenseResult.success ≠ DispenseResult.invalidRequest := by decide

/-- C4 (amended): the dispense operation rejects a request with
`InvalidRequest`, touching no state, exactly when `visitId` is missing or
empty, or `hospitalId` is missing or empty, or `medicines` is not an
array.  An empty items list is accepted, a blank medicine name is not
rejected here (it later fails as `MedicineNotFound` in validation), and a
non-positive quantity is not rejected at all. -/
theorem claim4_guard_iff (db : DB) (req : DispenseRequest) :
    ((giveMedicines db req).1 = .invalidRequest ↔ invalidCond req) ∧
    (invalidCond req → giveMedicines db req = (.invalidRequest, db)) := by
  rcases req with ⟨ov, oh, om⟩
  rcases ov with _ | vid
  · exact ⟨⟨fun _ => Or.inl rfl, fun _ => rfl⟩, fun _ => rfl⟩
  rcases oh with _ | hid
  · exact ⟨⟨fun _ => Or.inr (Or.inr (Or.inl rfl)), fun _ => rfl⟩, fun _ => rfl⟩
  rcases om with _ | items
  · exact ⟨⟨fun _ => Or.inr (Or.inr (Or.inr (Or.inr rfl))), fun _ => rfl⟩, fun _ => rfl⟩
  by_cases hv : vid = ""
  · subst hv
    constructor
    · exact ⟨fun _ => Or.inr (Or.inl rfl), fun _ => by simp [giveMedicines]⟩
    · intro _; simp [giveMedicines]
  by_cases hh : hid = ""
  · subst hh
    constructor
    · exact ⟨fun _ => Or.inr (Or.inr (Or.inr (Or.inl rfl))), fun _ => by simp [giveMedicines]⟩
    · intro _; simp [giveMedicines]
  have hnic : ¬ invalidCond ⟨some vid, some hid, some items⟩ := by
    intro hc
    rcases hc with h | h | h | h | h
    · exact Option.noConfusion h
    · exact hv (Option.some.inj h)
    · exact Option.noConfusion h
    · exact hh (Option.some.inj h)
    · exact Option.noConfusion h
  refine ⟨⟨fun hres => absurd ?_ hnic, fun hc => absurd hc hnic⟩, fun hc => absurd hc hnic⟩
  exfalso
  simp only [giveMedicines] at hres
  rw [if_neg (show ¬ (vid == "" || hid == "") = true by simp [hv, hh])] at hres
  cases hfv : findVisit db.visits vid with
  | none => simp [hfv] at hres
  | some visit =>
    simp only [hfv] at hres
    by_cases hg : visit.medicineGiven
    · simp [hg] at hres
    simp only [hg, Bool.false_eq_true, if_false] at hres
    cases hval : validateItems db.medicines items with
    | some err =>
      simp only [hval] at hres
      rcases validateItems_kinds hval with ⟨nm, rfl⟩ | ⟨nm, av, rq, rfl⟩ <;> simp at hres
    | none =>
      simp only [hval] at hres
      cases hc : commitItems items db.medicines with
      | mk bb ms' =>
        rw [hc] at hres
        cases bb <;> simp at hres

/-- Witness for C4 (amended): a request with no `visitId` is rejected
with state untouched. -/
theorem claim4_guard_iff_witness :
    giveMedicines ⟨[⟨"A", 4, 0⟩], []⟩ ⟨none, some "h", some []⟩
      = (.invalidRequest, ⟨[⟨"A", 4, 0⟩], []⟩) :=
  (claim4_guard_iff ⟨[⟨"A", 4, 0⟩], []⟩ ⟨none, some "h", some []⟩).2 (Or.inl rfl)

/-- C6: whenever dispense returns one of the five non-fatal errors
(`InvalidRequest`, `VisitNotFound`, `AlreadyDispensed`,
`MedicineNotFound`, `InsufficientStock`), the state is returned exactly
as it was: no medicine's stock and no visit is touched.  (The throwing
save of the commit pass surfaces as a distinct error kind and is not in
this list.) -/
theorem claim6_nonfatal_pure (db : DB) (req : DispenseRequest)
    (hr : isNonFatal (giveMedicines db req).1 = true) :
    (giveMedicines db req).2 = db := by
  rcases req with ⟨ov, oh, om⟩
  rcases ov with _ | vid
  · rfl
  rcases oh with _ | hid
  · rfl
  rcases om with _ | items
  · rfl
  by_cases hv : vid = ""
  · subst hv; simp [giveMedicines]
  by_cases hh : hid = ""
  · subst hh; simp [giveMedicines]
  simp only [giveMedicines] at hr ⊢
  rw [if_neg (show ¬ (vid == "" || hid == "") = true by simp [hv, hh])] at hr ⊢
  cases hfv : findVisit db.visits vid with
  | none => simp [hfv]
  | some visit =>
    simp only [hfv] at hr ⊢
    by_cases hg : visit.medicineGiven
    · simp [hg]
    simp only [hg, Bool.false_eq_true, if_false] at hr ⊢
    cases hval : validateItems db.medicines items with
    | some err => simp [hval]
    | none =>
      simp only [hval] at hr ⊢
      cases hc : commitItems items db.medicines with
      | mk bb ms' =>
        rw [hc] at hr
        cases bb
        · simp [isNonFatal] at hr
        · simp [isNonFatal] at hr

/-- Witness for C6 at the spec's Scenario 5: request `[A:ok, B:absent]`
fails with `MedicineNotFound "B"` and A's stock and the visit are
unchanged. -/
theorem claim6_nonfatal_pure_witness :
    (giveMedicines ⟨[⟨"A", 50, 0⟩], [⟨"v", "h", [], false, []⟩]⟩
        ⟨some "v", some "h",
         some [⟨"A", 5, "d", "i", "k", "a"⟩, ⟨"B", 1, "d", "i", "k", "a"⟩]⟩).1
      = .medicineNotFound "B" ∧
    (giveMedicines ⟨[⟨"A", 50, 0⟩], [⟨"v", "h", [], false, []⟩]⟩
        ⟨some "v", some "h",
         some [⟨"A", 5, "d", "i", "k", "a"⟩, ⟨"B", 1, "d", "i", "k", "a"⟩]⟩).2
      = ⟨[⟨"A", 50, 0⟩], [⟨"v", "h", [], false, []⟩]⟩ :=
  ⟨by decide,
   claim6_nonfatal_pure ⟨[⟨"A", 50, 0⟩], [⟨"v", "h", [], false, []⟩]⟩
     ⟨some "v", some "h",
      some [⟨"A", 5, "d", "i", "k", "a"⟩, ⟨"B", 1, "d", "i", "k", "a"⟩]⟩
     (by decide)⟩

/-- C7: the validation pass checks items in request order and fails fast.
If every item before `bad` passes both checks, then: when `bad`'s
medicine is absent the call fails `MedicineNotFound` with `bad`'s name,
and when it is present with stock below `bad`'s quantity the call fails
`InsufficientStock` carrying the name, the available and the required
quantity — in both cases with the state untouched and regardless of any
failures among the later items. -/
theorem claim7_failfast {db : DB} {vid hid : String}
    {pre post : List MedicineOrder} {bad : MedicineOrder} {visit : Visit}
    (h2 : vid ≠ "") (h4 : hid ≠ "")
    (h6 : findVisit db.visits vid = some visit)
    (h7 : visit.medicineGiven = false)
    (hpre : ∀ it ∈ pre, ∃ med, findMedicine db.medicines it.medicineName = some med ∧
        it.quantity ≤ med.quantity) :
    (findMedicine db.medicines bad.medicineName = none →
      giveMedicines db ⟨some vid, some hid, some (pre ++ bad :: post)⟩
        = (.medicineNotFound bad.medicineName, db)) ∧
    (∀ med, findMedicine db.medicines bad.medicineName = some med →
      med.quantity < bad.quantity →
      giveMedicines db ⟨some vid, some hid, some (pre ++ bad :: post)⟩
        = (.insufficientStock bad.medicineName med.quantity bad.quantity, db)) := by
  constructor
  · intro hf
    rw [giveMedicines_spec h2 h4 h6 h7, validateItems_append hpre,
      validateItems_cons_notfound hf]
  · intro med hf hq
    rw [giveMedicines_spec h2 h4 h6 h7, validateItems_append hpre,
      validateItems_cons_insufficient hf hq]

/-- Witness for C7: stock `{A: 100, Paracetamol: 5}`; the request
`[A:10, B:1, Paracetamol:10]` fails `MedicineNotFound "B"` (the later
under-stocked Paracetamol item is never reported), and the request
`[A:10, Paracetamol:10]` fails `InsufficientStock("Paracetamol", 5, 10)`. -/
theorem claim7_failfast_witness :
    giveMedicines ⟨[⟨"A", 100, 0⟩, ⟨"Paracetamol", 5, 0⟩], [⟨"v", "h", [], false, []⟩]⟩
        ⟨some "v", some "h",
         some [⟨"A", 10, "d", "i", "k", "a"⟩, ⟨"B", 1, "d", "i", "k", "a"⟩,
               ⟨"Paracetamol", 10, "d", "i", "k", "a"⟩]⟩
      = (.medicineNotFound "B",
         ⟨[⟨"A", 100, 0⟩, ⟨"Paracetamol", 5, 0⟩], [⟨"v", "h", [], false, []⟩]⟩) ∧
    giveMedicines ⟨[⟨"A", 100, 0⟩, ⟨"Paracetamol", 5, 0⟩], [⟨"v", "h", [], false, []⟩]⟩
        ⟨some "v", some "h",
         some [⟨"A", 10, "d", "i", "k", "a"⟩, ⟨"Paracetamol", 10, "d", "i", "k", "a"⟩]⟩
      = (.insufficientStock "Paracetamol" 5 10,
         ⟨[⟨"A", 100, 0⟩, ⟨"Paracetamol", 5, 0⟩], [⟨"v", "h", [], false, []⟩]⟩) := by
  constructor
  · exact (@claim7_failfast
      ⟨[⟨"A", 100, 0⟩, ⟨"Paracetamol", 5, 0⟩], [⟨"v", "h", [], false, []⟩]⟩ "v" "h"
      [⟨"A", 10, "d", "i", "k", "a"⟩] [⟨"Paracetamol", 10, "d", "i", "k", "a"⟩]
      ⟨"B", 1, "d", "i", "k", "a"⟩ ⟨"v", "h", [], false, []⟩
      (by decide) (by decide) (by decide) rfl
      (by
        intro it hit
        have he : it = ⟨"A", 10, "d", "i", "k", "a"⟩ := by simpa using hit
        subst he
        exact ⟨⟨"A", 100, 0⟩, by decide, by decide⟩)).1 (by decide)
  · exact (@claim7_failfast
      ⟨[⟨"A", 100, 0⟩, ⟨"Paracetamol", 5, 0⟩], [⟨"v", "h", [], false, []⟩]⟩ "v" "h"
      [⟨"A", 10, "d", "i", "k", "a"⟩] []
      ⟨"Paracetamol", 10, "d", "i", "k", "a"⟩ ⟨"v", "h", [], false, []⟩
      (by decide) (by decide) (by decide) rfl
      (by
        intro it hit
        have he : it = ⟨"A", 10, "d", "i", "k", "a"⟩ := by simpa using hit
        subst he
        exact ⟨⟨"A", 100, 0⟩, by decide, by decide⟩)).2
      ⟨"Paracetamol", 5, 0⟩ (by decide) (by decide)

/-- C9: a dispense call only ever writes the quantity of medicines named
in the request and the target visit's `medicineGiven` and
`givenMedicines` fields: the store after the call is pointwise related to
the store before it — every medicine keeps its name and threshold, every
medicine not named in the request is entirely unchanged, every visit
keeps its id, hospital and prescription, and every visit other than the
request's target is entirely unchanged. -/
theorem claim9_frame (db : DB) (req : DispenseRequest) :
    List.Forall₂ (medFrame (requestedNames req))
      db.medicines ((giveMedicines db req).2).medicines ∧
    List.Forall₂ (visitFrame req.visitId)
      db.visits ((giveMedicines db req).2).visits := by
  rcases req with ⟨ov, oh, om⟩
  rcases ov with _ | vid
  · exact ⟨forall₂_medFrame_refl _ _, forall₂_visitFrame_refl _ _⟩
  rcases oh with _ | hid
  · exact ⟨forall₂_medFrame_refl _ _, forall₂_visitFrame_refl _ _⟩
  rcases om with _ | items
  · exact ⟨forall₂_medFrame_refl _ _, forall₂_visitFrame_refl _ _⟩
  by_cases hv : vid = ""
  · subst hv
    simp only [giveMedicines]
    exact ⟨forall₂_medFrame_refl _ _, forall₂_visitFrame_refl _ _⟩
  by_cases hh : hid = ""
  · subst hh
    simp only [giveMedicines]
    rw [if_pos (by simp)]
    exact ⟨forall₂_medFrame_refl _ _, forall₂_visitFrame_refl _ _⟩
  have hsub : ∀ it ∈ items, it.medicineName ∈
      requestedNames ⟨some vid, some hid, some items⟩ := by
    intro it hit
    simpa [requestedNames] using List.mem_map_of_mem (fun i => i.medicineName) hit
  simp only [giveMedicines]
  rw [if_neg (show ¬ (vid == "" || hid == "") = true by simp [hv, hh])]
  cases hfv : findVisit db.visits vid with
  | none => exact ⟨forall₂_medFrame_refl _ _, forall₂_visitFrame_refl _ _⟩
  | some visit =>
    by_cases hg : visit.medicineGiven
    · simp only [hg, if_true]
      exact ⟨forall₂_medFrame_refl _ _, forall₂_visitFrame_refl _ _⟩
    simp only [hg, Bool.false_eq_true, if_false]
    cases hval : validateItems db.medicines items with
    | some err => exact ⟨forall₂_medFrame_refl _ _, forall₂_visitFrame_refl _ _⟩
    | none =>
      have hmframe := forall₂_medFrame_commit items db.medicines hsub
      cases hc : commitItems items db.medicines with
      | mk bb ms' =>
        rw [hc] at hmframe
        cases bb
        · exact ⟨hmframe, forall₂_visitFrame_refl _ _⟩
        · refine ⟨hmframe, ?_⟩
          exact forall₂_visitFrame_replace hfv rfl rfl rfl

/-- Witness for C9: discharged at a concrete request with one requested
medicine, one bystander medicine and one bystander visit. -/
theorem claim9_frame_witness :
    List.Forall₂ (medFrame (requestedNames ⟨some "v", some "h", some [⟨"A", 2, "d", "i", "k", "a"⟩]⟩))
      [⟨"A", 9, 0⟩, ⟨"B", 4, 1⟩]
      ((giveMedicines ⟨[⟨"A", 9, 0⟩, ⟨"B", 4, 1⟩],
          [⟨"v", "h", [], false, []⟩, ⟨"w", "h", [], false, []⟩]⟩
        ⟨some "v", some "h", some [⟨"A", 2, "d", "i", "k", "a"⟩]⟩).2).medicines ∧
    List.Forall₂ (visitFrame (some "v"))
      [⟨"v", "h", [], false, []⟩, ⟨"w", "h", [], false, []⟩]
      ((giveMedicines ⟨[⟨"A", 9, 0⟩, ⟨"B", 4, 1⟩],
          [⟨"v", "h", [], false, []⟩, ⟨"w", "h", [], false, []⟩]⟩
        ⟨some "v", some "h", some [⟨"A", 2, "d", "i", "k", "a"⟩]⟩).2).visits :=
  claim9_frame
    ⟨[⟨"A", 9, 0⟩, ⟨"B", 4, 1⟩], [⟨"v", "h", [], false, []⟩, ⟨"w", "h", [], false, []⟩]⟩
    ⟨some "v", some "h", some [⟨"A", 2, "d", "i", "k", "a"⟩]⟩

/-- C8 counterexample: two concurrent dispense attempts for the same
visit (stock `{X: 100}`, each requesting `X:10`), interleaved so that
both pass the `medicineGiven` check before either saves the visit: BOTH
attempts finish with success — not exactly one — and the inventory is
decremented once per attempt (100 → 80), not once in total. -/
theorem claim8_counterexample :
    (schedRun ([true, false] ++ List.replicate 6 true ++ List.replicate 6 false)
        ⟨[⟨"X", 100, 0⟩], [⟨"v", "h", [], false, []⟩]⟩
        ⟨"v", [⟨"X", 10, "d", "i", "k", "a"⟩], none, .start⟩
        ⟨"v", [⟨"X", 10, "d", "i", "k", "a"⟩], none, .start⟩).2.1.pc
      = .finished .success ∧
    (schedRun ([true, false] ++ List.replicate 6 true ++ List.replicate 6 false)
        ⟨[⟨"X", 100, 0⟩], [⟨"v", "h", [], false, []⟩]⟩
        ⟨"v", [⟨"X", 10, "d", "i", "k", "a"⟩], none, .start⟩
        ⟨"v", [⟨"X", 10, "d", "i", "k", "a"⟩], none, .start⟩).2.2.pc
      = .finished .success ∧
    ((schedRun ([true, false] ++ List.replicate 6 true ++ List.replicate 6 false)
        ⟨[⟨"X", 100, 0⟩], [⟨"v", "h", [], false, []⟩]⟩
        ⟨"v", [⟨"X", 10, "d", "i", "k", "a"⟩], none, .start⟩
        ⟨"v", [⟨"X", 10, "d", "i", "k", "a"⟩], none, .start⟩).1).medicines
      = [⟨"X", 80, 0⟩] := by decide

/-- C8 (amended): the dispensed check is a plain read followed much later
by a plain write, with no atomic compare-and-set, so there EXISTS an
interleaving of two concurrent dispense attempts for the same visit in
which both succeed and the inventory is decremented once per attempt
rather than once in total. -/
theorem claim8_race_exists :
    ∃ sched : List Bool,
      (schedRun sched
          ⟨[⟨"X", 100, 0⟩], [⟨"v", "h", [], false, []⟩]⟩
          ⟨"v", [⟨"X", 10, "d", "i", "k", "a"⟩], none, .start⟩
          ⟨"v", [⟨"X", 10, "d", "i", "k", "a"⟩], none, .start⟩).2.1.pc
        = .finished .success ∧
      (schedRun sched
          ⟨[⟨"X", 100, 0⟩], [⟨"v", "h", [], false, []⟩]⟩
          ⟨"v", [⟨"X", 10, "d", "i", "k", "a"⟩], none, .start⟩
          ⟨"v", [⟨"X", 10, "d", "i", "k", "a"⟩], none, .start⟩).2.2.pc
        = .finished .success ∧
      ((schedRun sched
          ⟨[⟨"X", 100, 0⟩], [⟨"v", "h", [], false, []⟩]⟩
          ⟨"v", [⟨"X", 10, "d", "i", "k", "a"⟩], none, .start⟩
          ⟨"v", [⟨"X", 10, "d", "i", "k", "a"⟩], none, .start⟩).1).medicines
        = [⟨"X", 80, 0⟩] :=
  ⟨[true, false] ++ List.replicate 6 true ++ List.replicate 6 false, by decide⟩

end AyurVishwa
